import Mathlib

/-
Verification development for the beacon service-registration agent.

The repository provides three source files: the label filter
(beacon/filter.go), the beacon engine's test suite (beacon/beacon_test.go)
and the Docker event source (docker package).  The reconciliation engine
itself and the container data model live outside the provided sources, so
those parts are modelled from the specification; the filter and the Docker
poller are translated directly from their Go sources.

Durations are modelled as natural numbers (a fixed unit, e.g. seconds).
-/

set_option autoImplicit false

namespace Beacon

/-- Modelled from the spec: transport protocol of a port (§3 Port.protocol,
the container package is not among the provided sources). -/
inductive Protocol where
  | tcp
  | udp
deriving DecidableEq, Repr

/-- Modelled from the spec: a port is a number together with a protocol
(§3 Port). -/
structure Port where
  number : Nat
  protocol : Protocol
deriving DecidableEq, Repr

/-- Modelled from the spec: an address is a hostname (possibly empty or a
wildcard) and a port (§3 Address). -/
structure Address where
  hostname : String
  port : Port
deriving DecidableEq, Repr

/-- Modelled from the spec: one NAT/publish rule of a workload: the internal
`containerPort` is reachable externally at `hostAddress` (§3 Mapping). -/
structure Mapping where
  hostAddress : Address
  containerPort : Port
deriving DecidableEq, Repr

/-- Modelled from the spec: a workload (§3 Workload, Go `container.Container`):
id, environment entries of the form KEY=VALUE, own hostname, port mappings
and labels.  Go's `map[string]string` of labels is modelled as an
association list. -/
structure Container where
  id : String
  environ : List String
  hostname : String
  mappings : List Mapping
  labels : List (String × String)
deriving DecidableEq, Repr

/-- Modelled from the spec: lifecycle event action (§3 LifecycleEvent.action,
Go `container.Action`). -/
inductive ContainerAction where
  | add
  | remove
deriving DecidableEq, Repr

/-- Modelled from the spec: a lifecycle event pairs an action with the
workload snapshot it concerns (§3 LifecycleEvent, Go `container.Event`). -/
structure Event where
  action : ContainerAction
  container : Container
deriving DecidableEq, Repr

/-- Split a character list at every occurrence of `sep`, mirroring Go's
`strings.Split` for a one-character separator (the empty list yields one
empty field). -/
def splitOnChar (sep : Char) : List Char → List (List Char)
  | [] => [[]]
  | c :: rest =>
    match splitOnChar sep rest with
    | [] => if c = sep then [[], []] else [[c]]
    | s :: ss => if c = sep then [] :: s :: ss else (c :: s) :: ss

/-- Split a string at every occurrence of the character `sep`. -/
def splitString (sep : Char) (s : String) : List String :=
  (splitOnChar sep s.data).map String.mk

/-- Split a character list at the first occurrence of `sep`, mirroring Go's
`strings.SplitN(s, sep, 2)`: `none` when `sep` does not occur. -/
def splitFirst (sep : Char) : List Char → Option (List Char × List Char)
  | [] => none
  | c :: rest =>
    if c = sep then some ([], rest)
    else
      match splitFirst sep rest with
      | none => none
      | some r => some (c :: r.1, r.2)

/-- Numeric value of a decimal digit character, `none` otherwise. -/
def digitVal (c : Char) : Option Nat :=
  if '0' ≤ c ∧ c ≤ '9' then some (c.toNat - '0'.toNat) else none

/-- Accumulating decimal parser over a character list. -/
def parseNatAux : List Char → Nat → Option Nat
  | [], acc => some acc
  | c :: rest, acc =>
    match digitVal c with
    | some d => parseNatAux rest (acc * 10 + d)
    | none => none

/-- Parse a nonempty all-digit character list as a natural number. -/
def parseNatDigits (cs : List Char) : Option Nat :=
  match cs with
  | [] => none
  | _ => parseNatAux cs 0

/-- Modelled from the spec: protocol tokens are the literals `tcp` and `udp`
(§6 declared-services syntax; `container.ParsePort` is not among the
provided sources). -/
def parseProtocol (cs : List Char) : Option Protocol :=
  if cs = "tcp".data then some Protocol.tcp
  else if cs = "udp".data then some Protocol.udp
  else none

/-- Modelled from the spec: a port number is an integer in 1–65535
(§3 Port). -/
def mkPort (n : Nat) (proto : Protocol) : Option Port :=
  if 1 ≤ n ∧ n ≤ 65535 then some ⟨n, proto⟩ else none

/-- Modelled from the spec: parse one declared-service entry
`name:port[/proto]`, protocol defaulting to `tcp` (§4.1 step 2, §6). -/
def parseServiceSpec (s : String) : Option (String × Port) :=
  match splitFirst ':' s.data with
  | none => none
  | some r =>
    match splitFirst '/' r.2 with
    | none =>
      match parseNatDigits r.2 with
      | none => none
      | some n => (mkPort n Protocol.tcp).map (fun port => (String.mk r.1, port))
    | some r2 =>
      match parseProtocol r2.2 with
      | none => none
      | some proto =>
        match parseNatDigits r2.1 with
        | none => none
        | some n => (mkPort n proto).map (fun port => (String.mk r.1, port))

/-- Modelled from the spec: scan the workload environment for the first entry
whose key (text before the first `=`) equals `key`; return its value
(§4.1 step 1). -/
def lookupEnv : List String → String → Option String
  | [], _ => none
  | e :: rest, key =>
    match splitFirst '=' e.data with
    | some r => if String.mk r.1 = key then some (String.mk r.2) else lookupEnv rest key
    | none => lookupEnv rest key

/-- Modelled from the spec: the declared services of a workload: the value of
the declared-services environment variable, split on `,`, each entry parsed
as `name:port[/proto]` (§4.1 steps 1–2). -/
def declaredSpecs (c : Container) (envVar : String) : List (String × Port) :=
  match lookupEnv c.environ envVar with
  | none => []
  | some value => (splitString ',' value).filterMap parseServiceSpec

/-- Modelled from the spec: first mapping whose container port equals the
declared port, both number and protocol (§4.1 step 3). -/
def findMapping (mappings : List Mapping) (p : Port) : Option Mapping :=
  mappings.find? (fun m => decide (m.containerPort = p))

/-- Modelled from the spec: resolve the externally reachable address of one
declared port: the matching mapping's host address, with the fallback
hostname substituted when that address's hostname is empty or the wildcard
`0.0.0.0`; the workload's own hostname and the declared port when no mapping
matches (§4.1 steps 3–5). -/
def resolveAddress (c : Container) (fallback : String) (p : Port) : Address :=
  match findMapping c.mappings p with
  | some m =>
    if m.hostAddress.hostname = "" ∨ m.hostAddress.hostname = "0.0.0.0" then
      { hostname := fallback, port := m.hostAddress.port }
    else m.hostAddress
  | none => { hostname := c.hostname, port := p }

/-- Modelled from the spec: the service extractor: one (name, address) per
declared service (§4.1). -/
def extract (c : Container) (envVar fallback : String) : List (String × Address) :=
  (declaredSpecs c envVar).map (fun s => (s.1, resolveAddress c fallback s.2))

/-- Basic filter which checks that the container has all of the given label
values (beacon/filter.go `labelFilter`; the Go label map is modelled as an
association list). -/
structure labelFilter where
  labels : List (String × String)
deriving DecidableEq

/-- MatchContainer returns true when every label/value pair of the filter is
present with an equal value among the container's labels
(beacon/filter.go `labelFilter.MatchContainer`). -/
def MatchContainer (f : labelFilter) (c : Container) : Bool :=
  f.labels.all (fun p => decide (c.labels.lookup p.1 = some p.2))

/-- NewFilter creates a new filter which returns true if a container has all
of the provided labels (beacon/filter.go `NewFilter`; Go's nil map becomes
the empty list). -/
def NewFilter (labels : List (String × String)) : labelFilter :=
  ⟨labels⟩

/-- Insert into an association list with Go map assignment semantics: replace
the binding when the key is present, append otherwise. -/
def mapInsert (m : List (String × String)) (k v : String) : List (String × String) :=
  if (m.lookup k).isSome then
    m.map (fun p => if p.1 = k then (k, v) else p)
  else m ++ [(k, v)]

/-- Loop of ParseFilter: each comma-separated pair is split at the first `=`;
a pair without `=` aborts with an error (beacon/filter.go `ParseFilter`). -/
def parseFilterPairs : List String → List (String × String) → Option (List (String × String))
  | [], acc => some acc
  | pair :: rest, acc =>
    match splitFirst '=' pair.data with
    | none => none
    | some r => parseFilterPairs rest (mapInsert acc (String.mk r.1) (String.mk r.2))

/-- ParseFilter creates a filter from the provided pattern of the form
`label1=value1,label2=value2,...`; the empty pattern yields a match-all
filter, a malformed pattern an error (beacon/filter.go `ParseFilter`). -/
def ParseFilter (pattern : String) : Except String labelFilter :=
  if pattern = "" then Except.ok ⟨[]⟩
  else
    match parseFilterPairs (splitString ',' pattern) [] with
    | some labels => Except.ok ⟨labels⟩
    | none => Except.error ("invalid filter pattern: " ++ pattern)

/-- Modelled from the spec: a registration is identified by the service name
together with the owning workload's id (§3 RegistrationKey). -/
structure RegistrationKey where
  name : String
  containerID : String
deriving DecidableEq, Repr

/-- Modelled from the spec: one registry entry: key, announced address and
time-to-live (§3 RegistrationEntry). -/
structure RegistrationEntry where
  key : RegistrationKey
  address : Address
  ttl : Nat
deriving DecidableEq, Repr

/-- Modelled from the spec: a call issued by the engine to an external
collaborator: Discovery.Announce, Discovery.Shutdown, or telling one event
source to stop (§6). -/
inductive EngineCall where
  | announce (name : String) (address : Address) (ttl : Nat)
  | shutdown (name : String) (address : Address)
  | stopListener (idx : Nat)
deriving DecidableEq, Repr

/-- Modelled from the spec: look a key up in the registry, which is an
in-memory map modelled as a list of entries with pairwise distinct keys
(§4.3). -/
def regFind : List RegistrationEntry → RegistrationKey → Option RegistrationEntry
  | [], _ => none
  | e :: rest, k => if e.key = k then some e else regFind rest k

/-- Modelled from the spec: replace the entry under key `k` by one carrying
the new address and ttl, as a Go map assignment does (§4.3 upsert, update
branch). -/
def regReplace : List RegistrationEntry → RegistrationKey → Address → Nat → List RegistrationEntry
  | [], _, _, _ => []
  | e :: rest, k, a, t =>
    if e.key = k then ⟨k, a, t⟩ :: regReplace rest k a t
    else e :: regReplace rest k a t

/-- Modelled from the spec: delete every entry under key `k`, as a Go map
delete does (§4.3 remove). -/
def regDelete : List RegistrationEntry → RegistrationKey → List RegistrationEntry
  | [], _ => []
  | e :: rest, k =>
    if e.key = k then regDelete rest k
    else e :: regDelete rest k

/-- Modelled from the spec: `upsert(key, address, ttl)` of the registry:
insert when absent (Changed), keep when present with an equal address
(Unchanged), replace when present with a different address (Changed); the
boolean is true exactly for Changed (§4.3). -/
def upsert (reg : List RegistrationEntry) (k : RegistrationKey) (a : Address) (t : Nat) :
    List RegistrationEntry × Bool :=
  match regFind reg k with
  | none => (reg ++ [⟨k, a, t⟩], true)
  | some e => if e.address = a then (reg, false) else (regReplace reg k a t, true)

/-- Modelled from the spec: `remove(key)` of the registry: delete the entry
if present and report it; removing an absent key is a no-op (§4.3). -/
def regRemove (reg : List RegistrationEntry) (k : RegistrationKey) :
    List RegistrationEntry × Option RegistrationEntry :=
  match regFind reg k with
  | none => (reg, none)
  | some e => (regDelete reg k, some e)

/-- Modelled from the spec: engine construction parameters: fallback
hostname, heartbeat interval, TTL, declared-services variable name, the
number of configured event sources and the optional label filter, an empty
filter matching everything (§4.4, Go `Beacon` struct fields of
beacon_test.go). -/
structure BeaconConfig where
  hostname : String
  heartbeat : Nat
  ttl : Nat
  envVar : String
  numListeners : Nat
  filter : List (String × String)
deriving DecidableEq, Repr

/-- Modelled from the spec: observable engine state: the registry and the
ordered trace of calls issued to the external collaborators (§4.4, §5). -/
structure BeaconState where
  registry : List RegistrationEntry
  calls : List EngineCall
deriving DecidableEq, Repr

/-- Modelled from the spec: apply an Add event's extracted (name, address)
pairs in order: upsert each under (name, workload id) with
ttl = heartbeat + TTL, announcing exactly on Changed (§4.4 Add). -/
def addPairs (cid : String) (tv : Nat) : List (String × Address) → BeaconState → BeaconState
  | [], st => st
  | p :: rest, st =>
    let r := upsert st.registry ⟨p.1, cid⟩ p.2 tv
    addPairs cid tv rest
      { registry := r.1,
        calls := if r.2 then st.calls ++ [EngineCall.announce p.1 p.2 tv] else st.calls }

/-- Modelled from the spec: apply a Remove event's extracted pairs in order:
remove each key from the registry, issuing one Discovery.Shutdown per
Present result and no call on Absent (§4.4 Remove). -/
def removePairs (cid : String) : List (String × Address) → BeaconState → BeaconState
  | [], st => st
  | p :: rest, st =>
    let r := regRemove st.registry ⟨p.1, cid⟩
    removePairs cid rest
      { registry := r.1,
        calls :=
          match r.2 with
          | some _ => st.calls ++ [EngineCall.shutdown p.1 p.2]
          | none => st.calls }

/-- Modelled from the spec: Add handling: run the extractor and upsert every
produced pair (§4.4 Add). -/
def applyAdd (cfg : BeaconConfig) (st : BeaconState) (c : Container) : BeaconState :=
  addPairs c.id (cfg.heartbeat + cfg.ttl) (extract c cfg.envVar cfg.hostname) st

/-- Modelled from the spec: Remove handling: run the extractor on the event's
workload snapshot and remove every produced key (§4.4 Remove). -/
def applyRemove (cfg : BeaconConfig) (st : BeaconState) (c : Container) : BeaconState :=
  removePairs c.id (extract c cfg.envVar cfg.hostname) st

/-- Modelled from the spec: event application: drop the event entirely when
the label filter does not match, otherwise dispatch on the action (§4.4). -/
def applyEvent (cfg : BeaconConfig) (st : BeaconState) (ev : Event) : BeaconState :=
  if MatchContainer ⟨cfg.filter⟩ ev.container then
    match ev.action with
    | ContainerAction.add => applyAdd cfg st ev.container
    | ContainerAction.remove => applyRemove cfg st ev.container
  else st

/-- Modelled from the spec: heartbeat tick: one Discovery.Announce per
registry entry with the entry's own name, address and ttl (§4.4 heartbeat). -/
def heartbeat (st : BeaconState) : BeaconState :=
  { st with
    calls := st.calls ++ st.registry.map (fun e => EngineCall.announce e.key.name e.address e.ttl) }

/-- Modelled from the spec: iterate `n` heartbeat ticks with no intervening
events (§4.4 heartbeat). -/
def runHeartbeats (st : BeaconState) : Nat → BeaconState
  | 0 => st
  | n + 1 => runHeartbeats (heartbeat st) n

/-- Modelled from the spec: withdrawal loop of close: remove each snapshot
entry's key from the registry, issuing one Discovery.Shutdown per entry
found (§4.4 Closing). -/
def closePairs : List RegistrationEntry → BeaconState → BeaconState
  | [], st => st
  | e :: rest, st =>
    let r := regRemove st.registry e.key
    closePairs rest
      { registry := r.1,
        calls :=
          match r.2 with
          | some e2 => st.calls ++ [EngineCall.shutdown e2.key.name e2.address]
          | none => st.calls }

/-- Modelled from the spec: close: tell every configured event source to
stop, then withdraw every entry still in the registry and only then report
closed (§4.4 Closing). -/
def closeBeacon (cfg : BeaconConfig) (st : BeaconState) : BeaconState :=
  closePairs st.registry
    { st with calls := st.calls ++ (List.range cfg.numListeners).map EngineCall.stopListener }

/-- Modelled from the spec: one input consumed by the engine's single
reconciliation stream: a lifecycle event, a heartbeat tick, or the close
request (§5). -/
inductive EngineOp where
  | event (ev : Event)
  | tick
  | closeOp
deriving DecidableEq, Repr

/-- Modelled from the spec: apply one reconciliation-stream input (§5). -/
def step (cfg : BeaconConfig) (st : BeaconState) : EngineOp → BeaconState
  | EngineOp.event ev => applyEvent cfg st ev
  | EngineOp.tick => heartbeat st
  | EngineOp.closeOp => closeBeacon cfg st

/-- Modelled from the spec: run the engine over an ordered list of
reconciliation-stream inputs (§5). -/
def runOps (cfg : BeaconConfig) : BeaconState → List EngineOp → BeaconState
  | st, [] => st
  | st, op :: ops => runOps cfg (step cfg st op) ops

/-- Tracked-container table of the Docker event source, Go's
`map[string]*container.Container` modelled as an association list with
pairwise distinct keys (docker source, `Docker.containers`). -/
abbrev DockerTracked := List (String × Container)

/-- Docker `add`: emit an Add event for the container with the given id,
unless it is already tracked or inspecting it fails (docker source `add`). -/
def dockerAdd (tracked : DockerTracked) (id : String) (get : String → Option Container) :
    DockerTracked × List Event :=
  if (tracked.lookup id).isSome then (tracked, [])
  else
    match get id with
    | some c => (tracked ++ [(id, c)], [⟨ContainerAction.add, c⟩])
    | none => (tracked, [])

/-- Docker `remove`: emit a Remove event for the container with the given id
if it is tracked (docker source `remove`). -/
def dockerRemove (tracked : DockerTracked) (id : String) :
    DockerTracked × List Event :=
  match tracked.lookup id with
  | some c => (tracked.filter (fun q => decide (q.1 ≠ id)), [⟨ContainerAction.remove, c⟩])
  | none => (tracked, [])

/-- First loop of Docker `poll`: call `add` for every listed container id in
order (docker source `poll`). -/
def dockerAddAll (get : String → Option Container) :
    List String → DockerTracked → List Event → DockerTracked × List Event
  | [], tr, evs => (tr, evs)
  | id :: rest, tr, evs =>
    let r := dockerAdd tr id get
    dockerAddAll get rest r.1 (evs ++ r.2)

/-- Second loop of Docker `poll`: call `remove` for every tracked id that the
listing did not report (docker source `poll`). -/
def dockerRemoveAll (ids : List String) :
    List String → DockerTracked → List Event → DockerTracked × List Event
  | [], tr, evs => (tr, evs)
  | id :: rest, tr, evs =>
    if ids.contains id then dockerRemoveAll ids rest tr evs
    else
      let r := dockerRemove tr id
      dockerRemoveAll ids rest r.1 (evs ++ r.2)

/-- Docker `poll`: list the containers (on a listing error the code only logs
and proceeds with Go's nil slice, modelled as `none` ↦ `[]`), add every
listed id, then remove every tracked id that was not listed (docker source
`poll`). -/
def dockerPoll (tracked : DockerTracked) (listResult : Option (List String))
    (get : String → Option Container) : DockerTracked × List Event :=
  let containers := match listResult with | some cs => cs | none => []
  let r1 := dockerAddAll get containers tracked []
  dockerRemoveAll containers (r1.1.map Prod.fst) r1.1 r1.2

/-- Address currently registered under a key, if any. -/
def addrAt (reg : List RegistrationEntry) (k : RegistrationKey) : Option Address :=
  (regFind reg k).map RegistrationEntry.address

/-- Invariant tying every registry entry's ttl and every announce call's ttl
argument to one value `tv` (intended: heartbeat + TTL). -/
def goodTTL (tv : Nat) (st : BeaconState) : Prop :=
  (∀ e ∈ st.registry, e.ttl = tv) ∧
  ∀ n a t, EngineCall.announce n a t ∈ st.calls → t = tv

theorem splitFirst_none_of_forall (sep : Char) (cs : List Char)
    (h : ∀ ch ∈ cs, ch ≠ sep) : splitFirst sep cs = none := by
  induction cs with
  | nil => rfl
  | cons c rest ih =>
    have hc : c ≠ sep := h c (List.mem_cons_self c rest)
    have hrest := ih (fun ch hch => h ch (List.mem_cons_of_mem c hch))
    simp [splitFirst, hc, hrest]

theorem parseFilterPairs_none (pairs : List String) (acc : List (String × String))
    (pair : String) (hmem : pair ∈ pairs) (hbad : splitFirst '=' pair.data = none) :
    parseFilterPairs pairs acc = none := by
  induction pairs generalizing acc with
  | nil => simp at hmem
  | cons hd rest ih =>
    rcases List.mem_cons.mp hmem with heq | hmem2
    · subst heq
      simp [parseFilterPairs, hbad]
    · simp only [parseFilterPairs]
      cases h : splitFirst '=' hd.data with
      | none => rfl
      | some r => exact ih _ hmem2

/-- Claim C9: ParseFilter on the empty string succeeds with a match-all
filter; on a pattern containing any comma-separated pair without an `=`
separator it returns a construction error and no filter. -/
theorem parseFilter_empty_and_malformed :
    ParseFilter ("") = Except.ok ⟨[]⟩
    ∧ (∀ c, MatchContainer ⟨[]⟩ c = true)
    ∧ ∀ pattern pair, pattern ≠ "" → pair ∈ splitString ',' pattern →
        (∀ ch ∈ pair.data, ch ≠ '=') →
        ParseFilter pattern = Except.error ("invalid filter pattern: " ++ pattern) := by
  refine ⟨rfl, fun c => rfl, ?_⟩
  intro pattern pair hne hmem hch
  unfold ParseFilter
  rw [if_neg hne, parseFilterPairs_none (splitString ',' pattern) [] pair hmem
    (splitFirst_none_of_forall '=' pair.data hch)]

theorem parseFilter_witness :
    ParseFilter ("") = Except.ok ⟨[]⟩
    ∧ ParseFilter ("a=1,b") = Except.error ("invalid filter pattern: " ++ "a=1,b") :=
  ⟨parseFilter_empty_and_malformed.1,
   parseFilter_empty_and_malformed.2.2 ("a=1,b") ("b") (by decide) (by decide) (by decide)⟩

/-- Claim C8: MatchContainer is true iff every label/value pair of the filter
is present with an equal value among the workload's labels, and a filter
built from no pairs matches every workload. -/
theorem matchContainer_iff (ps : List (String × String)) (c : Container) :
    (MatchContainer (NewFilter ps) c = true ↔ ∀ p ∈ ps, c.labels.lookup p.1 = some p.2)
    ∧ MatchContainer (NewFilter []) c = true := by
  constructor
  · simp [MatchContainer, NewFilter, List.all_eq_true]
  · rfl

/-- Claim C5: when a declared port's matching mapping has an empty or
wildcard `0.0.0.0` hostname, extraction substitutes the fallback hostname
and keeps the mapped host port and protocol. -/
theorem resolveAddress_wildcard_fallback (c : Container) (fb : String) (p : Port) (m : Mapping)
    (hfind : findMapping c.mappings p = some m)
    (hw : m.hostAddress.hostname = "" ∨ m.hostAddress.hostname = "0.0.0.0") :
    resolveAddress c fb p = { hostname := fb, port := m.hostAddress.port }
    ∧ ∀ envVar name, (name, p) ∈ declaredSpecs c envVar →
        (name, Address.mk fb m.hostAddress.port) ∈ extract c envVar fb := by
  have h1 : resolveAddress c fb p = { hostname := fb, port := m.hostAddress.port } := by
    rcases hw with hw | hw <;> simp [resolveAddress, hfind, hw]
  refine ⟨h1, ?_⟩
  intro envVar name hmem
  unfold extract
  exact List.mem_map.mpr ⟨(name, p), hmem, by rw [h1]⟩

theorem resolveAddress_wildcard_witness :
    resolveAddress ⟨"c1", ["SERVICES=www:80"], "172.16.0.10",
        [⟨⟨"", ⟨49000, Protocol.tcp⟩⟩, ⟨80, Protocol.tcp⟩⟩], []⟩
      "testing.example.net" ⟨80, Protocol.tcp⟩
      = { hostname := "testing.example.net", port := ⟨49000, Protocol.tcp⟩ }
    ∧ ("www", Address.mk ("testing.example.net") ⟨49000, Protocol.tcp⟩)
        ∈ extract ⟨"c1", ["SERVICES=www:80"], "172.16.0.10",
            [⟨⟨"", ⟨49000, Protocol.tcp⟩⟩, ⟨80, Protocol.tcp⟩⟩], []⟩ "SERVICES" "testing.example.net" := by
  have h := resolveAddress_wildcard_fallback
    ⟨"c1", ["SERVICES=www:80"], "172.16.0.10",
        [⟨⟨"", ⟨49000, Protocol.tcp⟩⟩, ⟨80, Protocol.tcp⟩⟩], []⟩
    "testing.example.net" ⟨80, Protocol.tcp⟩
    ⟨⟨"", ⟨49000, Protocol.tcp⟩⟩, ⟨80, Protocol.tcp⟩⟩ (by decide) (by decide)
  exact ⟨h.1, h.2 ("SERVICES") ("www") (by decide)⟩

/-- Claim C6: when no mapping matches a declared (port, protocol), extraction
yields the workload's own hostname together with the declared port. -/
theorem resolveAddress_no_mapping (c : Container) (fb : String) (p : Port)
    (hfind : findMapping c.mappings p = none) :
    resolveAddress c fb p = { hostname := c.hostname, port := p }
    ∧ ∀ envVar name, (name, p) ∈ declaredSpecs c envVar →
        (name, Address.mk c.hostname p) ∈ extract c envVar fb := by
  have h1 : resolveAddress c fb p = { hostname := c.hostname, port := p } := by
    simp [resolveAddress, hfind]
  refine ⟨h1, ?_⟩
  intro envVar name hmem
  unfold extract
  exact List.mem_map.mpr ⟨(name, p), hmem, by rw [h1]⟩

theorem resolveAddress_no_mapping_witness :
    resolveAddress ⟨"c3", ["SERVICES=api:443/tcp"], "172.16.0.12", [], []⟩
      "testing.example.net" ⟨443, Protocol.tcp⟩
      = { hostname := "172.16.0.12", port := ⟨443, Protocol.tcp⟩ }
    ∧ ("api", Address.mk ("172.16.0.12") ⟨443, Protocol.tcp⟩)
        ∈ extract ⟨"c3", ["SERVICES=api:443/tcp"], "172.16.0.12", [], []⟩
            "SERVICES" "testing.example.net" := by
  have h := resolveAddress_no_mapping
    ⟨"c3", ["SERVICES=api:443/tcp"], "172.16.0.12", [], []⟩
    "testing.example.net" ⟨443, Protocol.tcp⟩ (by decide)
  exact ⟨h.1, h.2 ("SERVICES") ("api") (by decide)⟩

theorem regFind_none_of_cid (reg : List RegistrationEntry) (k : RegistrationKey)
    (h : ∀ e ∈ reg, e.key.containerID ≠ k.containerID) : regFind reg k = none := by
  induction reg with
  | nil => rfl
  | cons e rest ih =>
    have hne : e.key ≠ k := by
      intro heq
      exact h e (List.mem_cons_self e rest) (by rw [heq])
    simp [regFind, hne]
    exact ih (fun e2 h2 => h e2 (List.mem_cons_of_mem e h2))

theorem removePairs_absent (cid : String) (pairs : List (String × Address)) (st : BeaconState)
    (h : ∀ p ∈ pairs, regFind st.registry ⟨p.1, cid⟩ = none) :
    removePairs cid pairs st = st := by
  induction pairs generalizing st with
  | nil => rfl
  | cons p rest ih =>
    have hp := h p (List.mem_cons_self p rest)
    simp only [removePairs, regRemove, hp]
    exact ih st (fun q hq => h q (List.mem_cons_of_mem p hq))

/-- Claim C4: a Remove event for a workload that owns no registry entry
(never added, or already removed) issues no backend call and leaves the
state unchanged; registry removal of an absent key is a no-op. -/
theorem remove_absent_noop (cfg : BeaconConfig) (st : BeaconState) (c : Container)
    (hfilter : cfg.filter = [])
    (habsent : ∀ e ∈ st.registry, e.key.containerID ≠ c.id) :
    applyEvent cfg st ⟨ContainerAction.remove, c⟩ = st := by
  have hmatch : MatchContainer ⟨cfg.filter⟩ c = true := by
    rw [hfilter]; rfl
  simp only [applyEvent, hmatch, if_pos]
  exact removePairs_absent c.id _ st
    (fun p _ => regFind_none_of_cid st.registry ⟨p.1, c.id⟩ habsent)

theorem remove_absent_witness :
    applyEvent ⟨"testing.example.net", 30, 30, "SERVICES", 1, []⟩
      ⟨[⟨⟨"www", "c9"⟩, ⟨"10.1.1.100", ⟨49000, Protocol.tcp⟩⟩, 60⟩], []⟩
      ⟨ContainerAction.remove,
        ⟨"c1", ["SERVICES=www:80"], "172.16.0.10",
          [⟨⟨"10.1.1.100", ⟨49000, Protocol.tcp⟩⟩, ⟨80, Protocol.tcp⟩⟩], []⟩⟩
    = ⟨[⟨⟨"www", "c9"⟩, ⟨"10.1.1.100", ⟨49000, Protocol.tcp⟩⟩, 60⟩], []⟩ :=
  remove_absent_noop _ _ _ (by decide) (by decide)

theorem regDelete_of_forall_ne (reg : List RegistrationEntry) (k : RegistrationKey)
    (h : ∀ e ∈ reg, e.key ≠ k) : regDelete reg k = reg := by
  induction reg with
  | nil => rfl
  | cons e rest ih =>
    have hne : e.key ≠ k := h e (List.mem_cons_self e rest)
    simp [regDelete, hne]
    exact ih (fun e2 h2 => h e2 (List.mem_cons_of_mem e h2))

theorem closePairs_self (es : List RegistrationEntry) (calls0 : List EngineCall)
    (hnodup : (es.map RegistrationEntry.key).Nodup) :
    closePairs es ⟨es, calls0⟩
      = ⟨[], calls0 ++ es.map (fun e => EngineCall.shutdown e.key.name e.address)⟩ := by
  induction es generalizing calls0 with
  | nil => simp [closePairs]
  | cons e rest ih =>
    have hnd := List.nodup_cons.mp hnodup
    have hrest : regDelete rest e.key = rest := by
      refine regDelete_of_forall_ne rest e.key (fun e2 h2 hk => hnd.1 ?_)
      rw [← hk]
      exact List.mem_map_of_mem RegistrationEntry.key h2
    have step : closePairs (e :: rest) ⟨e :: rest, calls0⟩
        = closePairs rest ⟨rest, calls0 ++ [EngineCall.shutdown e.key.name e.address]⟩ := by
      simp [closePairs, regRemove, regFind, regDelete, hrest]
    rw [step, ih (calls0 ++ [EngineCall.shutdown e.key.name e.address]) hnd.2]
    simp

/-- Claim C2: closing the engine empties the registry, issues exactly one
Discovery.Shutdown per entry present at the moment of close, and tells every
configured event source to stop before any withdrawal is issued. -/
theorem close_shutdown_all (cfg : BeaconConfig) (st : BeaconState)
    (hnodup : (st.registry.map RegistrationEntry.key).Nodup) :
    (closeBeacon cfg st).registry = []
    ∧ (closeBeacon cfg st).calls
        = st.calls ++ (List.range cfg.numListeners).map EngineCall.stopListener
            ++ st.registry.map (fun e => EngineCall.shutdown e.key.name e.address) := by
  have h := closePairs_self st.registry
    (st.calls ++ (List.range cfg.numListeners).map EngineCall.stopListener) hnodup
  unfold closeBeacon
  rw [h]
  exact ⟨rfl, rfl⟩

theorem close_shutdown_witness :
    (closeBeacon ⟨"h", 30, 30, "SERVICES", 2, []⟩
        ⟨[⟨⟨"www", "c1"⟩, ⟨"10.1.1.100", ⟨49000, Protocol.tcp⟩⟩, 60⟩,
          ⟨⟨"api", "c3"⟩, ⟨"172.16.0.12", ⟨443, Protocol.tcp⟩⟩, 60⟩], []⟩).registry = []
    ∧ (closeBeacon ⟨"h", 30, 30, "SERVICES", 2, []⟩
        ⟨[⟨⟨"www", "c1"⟩, ⟨"10.1.1.100", ⟨49000, Protocol.tcp⟩⟩, 60⟩,
          ⟨⟨"api", "c3"⟩, ⟨"172.16.0.12", ⟨443, Protocol.tcp⟩⟩, 60⟩], []⟩).calls
      = [] ++ (List.range 2).map EngineCall.stopListener
          ++ ([⟨⟨"www", "c1"⟩, ⟨"10.1.1.100", ⟨49000, Protocol.tcp⟩⟩, 60⟩,
               ⟨⟨"api", "c3"⟩, ⟨"172.16.0.12", ⟨443, Protocol.tcp⟩⟩, 60⟩] :
              List RegistrationEntry).map
              (fun e => EngineCall.shutdown e.key.name e.address) :=
  close_shutdown_all ⟨"h", 30, 30, "SERVICES", 2, []⟩
    ⟨[⟨⟨"www", "c1"⟩, ⟨"10.1.1.100", ⟨49000, Protocol.tcp⟩⟩, 60⟩,
      ⟨⟨"api", "c3"⟩, ⟨"172.16.0.12", ⟨443, Protocol.tcp⟩⟩, 60⟩], []⟩ (by decide)

/-- Claim C3: over `n` heartbeat ticks with no intervening events, the
registry is unchanged and exactly `n × K` announce calls are appended for
`K` registered entries, each block re-announcing every entry with its
registered name, address and ttl. -/
theorem heartbeat_reannounce (st : BeaconState) (n : Nat) :
    (runHeartbeats st n).registry = st.registry
    ∧ (runHeartbeats st n).calls
        = st.calls ++ (List.replicate n
            (st.registry.map (fun e => EngineCall.announce e.key.name e.address e.ttl))).flatten
    ∧ (runHeartbeats st n).calls.length = st.calls.length + n * st.registry.length := by
  induction n generalizing st with
  | zero => simp [runHeartbeats]
  | succ m ih =>
    have hstep : runHeartbeats st (m + 1) = runHeartbeats (heartbeat st) m := rfl
    have hreg : (heartbeat st).registry = st.registry := rfl
    obtain ⟨ih1, ih2, ih3⟩ := ih (heartbeat st)
    refine ⟨by rw [hstep, ih1, hreg], ?_, ?_⟩
    · rw [hstep, ih2, hreg]
      simp [heartbeat, List.replicate_succ]
    · rw [hstep, ih3, hreg]
      simp only [heartbeat, List.length_append, List.length_map]
      ring

theorem filter_ne_of_not_key (id : String) (tr : DockerTracked)
    (h : id ∉ tr.map Prod.fst) :
    tr.filter (fun q => decide (q.1 ≠ id)) = tr := by
  refine List.filter_eq_self.mpr (fun q hq => ?_)
  simp only [decide_eq_true_eq]
  intro heq
  exact h (heq ▸ List.mem_map_of_mem Prod.fst hq)

theorem dockerRemoveAll_empty_ids (tr : DockerTracked) (evs : List Event)
    (hnodup : (tr.map Prod.fst).Nodup) :
    dockerRemoveAll [] (tr.map Prod.fst) tr evs
      = ([], evs ++ tr.map (fun q => Event.mk ContainerAction.remove q.2)) := by
  induction tr generalizing evs with
  | nil => simp [dockerRemoveAll]
  | cons q rest ih =>
    have hnd := List.nodup_cons.mp hnodup
    have hlook : List.lookup q.1 (q :: rest) = some q.2 := by
      simp [List.lookup]
    have hfilter : (q :: rest).filter (fun r => decide (r.1 ≠ q.1)) = rest := by
      simp [List.filter_cons, List.filter_eq_self]
      intro a b hab heq
      exact hnd.1 (heq ▸ List.mem_map_of_mem Prod.fst hab)
    have step : dockerRemoveAll [] ((q :: rest).map Prod.fst) (q :: rest) evs
        = dockerRemoveAll [] (rest.map Prod.fst) rest
            (evs ++ [Event.mk ContainerAction.remove q.2]) := by
      simp only [List.map_cons, dockerRemoveAll, List.contains, List.elem_nil,
        Bool.false_eq_true, if_false, dockerRemove, hlook, hfilter]
    rw [step, ih (evs ++ [Event.mk ContainerAction.remove q.2]) hnd.2]
    simp

/-- Claim C10: when listing containers fails during a Docker poll, the poll
proceeds as if the runtime reported zero containers: the source emits one
Remove event per tracked container and ends up tracking nothing. -/
theorem dockerPoll_listing_error (tracked : DockerTracked) (get : String → Option Container)
    (hnodup : (tracked.map Prod.fst).Nodup) :
    dockerPoll tracked none get
      = ([], tracked.map (fun q => Event.mk ContainerAction.remove q.2)) := by
  have h := dockerRemoveAll_empty_ids tracked [] hnodup
  unfold dockerPoll
  simp only [dockerAddAll]
  rw [h]
  simp

theorem dockerPoll_listing_error_witness :
    dockerPoll
        [("c1", ⟨"c1", ["SERVICES=www:80"], "172.16.0.10",
            [⟨⟨"10.1.1.100", ⟨49000, Protocol.tcp⟩⟩, ⟨80, Protocol.tcp⟩⟩], []⟩),
         ("c3", ⟨"c3", ["SERVICES=api:443/tcp"], "172.16.0.12", [], []⟩)]
        none (fun _ => none)
      = ([],
         [Event.mk ContainerAction.remove
            ⟨"c1", ["SERVICES=www:80"], "172.16.0.10",
              [⟨⟨"10.1.1.100", ⟨49000, Protocol.tcp⟩⟩, ⟨80, Protocol.tcp⟩⟩], []⟩,
          Event.mk ContainerAction.remove
            ⟨"c3", ["SERVICES=api:443/tcp"], "172.16.0.12", [], []⟩]) :=
  dockerPoll_listing_error
    [("c1", ⟨"c1", ["SERVICES=www:80"], "172.16.0.10",
        [⟨⟨"10.1.1.100", ⟨49000, Protocol.tcp⟩⟩, ⟨80, Protocol.tcp⟩⟩], []⟩),
     ("c3", ⟨"c3", ["SERVICES=api:443/tcp"], "172.16.0.12", [], []⟩)]
    (fun _ => none) (by decide)

theorem regFind_append_single_ne (reg : List RegistrationEntry) (e : RegistrationEntry)
    (k : RegistrationKey) (h : e.key ≠ k) : regFind (reg ++ [e]) k = regFind reg k := by
  induction reg with
  | nil => simp [regFind, h]
  | cons e2 rest ih =>
    by_cases h2 : e2.key = k
    · simp [regFind, h2]
    · simp [regFind, h2, ih]

theorem regFind_regReplace_ne (reg : List RegistrationEntry) (k : RegistrationKey)
    (a : Address) (t : Nat) (k2 : RegistrationKey) (h : k2 ≠ k) :
    regFind (regReplace reg k a t) k2 = regFind reg k2 := by
  induction reg with
  | nil => rfl
  | cons e rest ih =>
    by_cases he : e.key = k
    · have hk : k ≠ k2 := fun heq => h heq.symm
      have he2 : e.key ≠ k2 := by rw [he]; exact hk
      simp [regReplace, he, regFind, hk, he2, ih]
    · simp only [regReplace, if_neg he]
      by_cases he2 : e.key = k2
      · simp [regFind, he2]
      · simp [regFind, he2, ih]

theorem regFind_upsert_ne (reg : List RegistrationEntry) (k : RegistrationKey)
    (a : Address) (t : Nat) (k2 : RegistrationKey) (h : k2 ≠ k) :
    regFind (upsert reg k a t).1 k2 = regFind reg k2 := by
  unfold upsert
  cases hf : regFind reg k with
  | none =>
    simp only []
    exact regFind_append_single_ne reg ⟨k, a, t⟩ k2 (fun heq => h heq.symm)
  | some e =>
    by_cases ha : e.address = a
    · simp [ha]
    · simp only [if_neg ha]
      exact regFind_regReplace_ne reg k a t k2 h

theorem upsert_unchanged (reg : List RegistrationEntry) (k : RegistrationKey)
    (a : Address) (t : Nat) (hm : addrAt reg k = some a) :
    upsert reg k a t = (reg, false) := by
  obtain ⟨e, hf, ha⟩ := Option.map_eq_some'.mp hm
  simp [upsert, hf, ha]

theorem upsert_changed (reg : List RegistrationEntry) (k : RegistrationKey)
    (a : Address) (t : Nat) (hm : addrAt reg k ≠ some a) :
    (upsert reg k a t).2 = true := by
  unfold upsert
  cases hf : regFind reg k with
  | none => rfl
  | some e =>
    have ha : e.address ≠ a := by
      intro heq
      exact hm (by simp [addrAt, hf, heq])
    simp [ha]

theorem addPairs_fresh (cid : String) (tv : Nat) (pairs : List (String × Address))
    (st : BeaconState) (hnodup : (pairs.map Prod.fst).Nodup)
    (habs : ∀ p ∈ pairs, regFind st.registry ⟨p.1, cid⟩ = none) :
    addPairs cid tv pairs st
      = ⟨st.registry ++ pairs.map (fun p => ⟨⟨p.1, cid⟩, p.2, tv⟩),
         st.calls ++ pairs.map (fun p => EngineCall.announce p.1 p.2 tv)⟩ := by
  induction pairs generalizing st with
  | nil => cases st; simp [addPairs]
  | cons p rest ih =>
    have hnd := List.nodup_cons.mp hnodup
    have hp := habs p (List.mem_cons_self p rest)
    have step : addPairs cid tv (p :: rest) st
        = addPairs cid tv rest
            ⟨st.registry ++ [⟨⟨p.1, cid⟩, p.2, tv⟩],
             st.calls ++ [EngineCall.announce p.1 p.2 tv]⟩ := by
      simp [addPairs, upsert, hp]
    have habs2 : ∀ q ∈ rest,
        regFind (st.registry ++ [⟨⟨p.1, cid⟩, p.2, tv⟩]) ⟨q.1, cid⟩ = none := by
      intro q hq
      have hq1 : q.1 ≠ p.1 := by
        intro heq
        exact hnd.1 (heq ▸ List.mem_map_of_mem Prod.fst hq)
      have hkey : (⟨⟨p.1, cid⟩, p.2, tv⟩ : RegistrationEntry).key ≠ ⟨q.1, cid⟩ := by
        simp [RegistrationKey.mk.injEq]
        intro heq
        exact hq1 heq.symm
      rw [regFind_append_single_ne st.registry _ _ hkey]
      exact habs q (List.mem_cons_of_mem p hq)
    rw [step, ih _ hnd.2 habs2]
    simp

theorem addPairs_matching (cid : String) (tv : Nat) (pairs : List (String × Address))
    (st : BeaconState)
    (hmatch : ∀ p ∈ pairs, addrAt st.registry ⟨p.1, cid⟩ = some p.2) :
    addPairs cid tv pairs st = st := by
  induction pairs generalizing st with
  | nil => rfl
  | cons p rest ih =>
    have hp := hmatch p (List.mem_cons_self p rest)
    have hup := upsert_unchanged st.registry ⟨p.1, cid⟩ p.2 tv hp
    have step : addPairs cid tv (p :: rest) st = addPairs cid tv rest st := by
      simp [addPairs, hup]
    rw [step]
    exact ih st (fun q hq => hmatch q (List.mem_cons_of_mem p hq))

theorem regFind_map_self (cid : String) (tv : Nat) (pairs : List (String × Address))
    (hnodup : (pairs.map Prod.fst).Nodup) (p : String × Address) (hp : p ∈ pairs) :
    regFind (pairs.map (fun q => (⟨⟨q.1, cid⟩, q.2, tv⟩ : RegistrationEntry))) ⟨p.1, cid⟩
      = some ⟨⟨p.1, cid⟩, p.2, tv⟩ := by
  induction pairs with
  | nil => simp at hp
  | cons q rest ih =>
    have hnd := List.nodup_cons.mp hnodup
    rcases List.mem_cons.mp hp with heq | hp2
    · subst heq
      simp [regFind]
    · have hq1 : q.1 ≠ p.1 := by
        intro heq
        exact hnd.1 (heq ▸ List.mem_map_of_mem Prod.fst hp2)
      have hkey : (⟨q.1, cid⟩ : RegistrationKey) ≠ ⟨p.1, cid⟩ := by
        simp [RegistrationKey.mk.injEq, hq1]
      simp only [List.map_cons, regFind, if_neg hkey]
      exact ih hnd.2 hp2

theorem addPairs_calls (cid : String) (tv : Nat) (pairs : List (String × Address))
    (st : BeaconState) (hnodup : (pairs.map Prod.fst).Nodup) :
    (addPairs cid tv pairs st).calls
      = st.calls ++ (pairs.filter
          (fun p => decide (addrAt st.registry ⟨p.1, cid⟩ ≠ some p.2))).map
          (fun p => EngineCall.announce p.1 p.2 tv) := by
  induction pairs generalizing st with
  | nil => simp [addPairs]
  | cons p rest ih =>
    have hnd := List.nodup_cons.mp hnodup
    by_cases hm : addrAt st.registry ⟨p.1, cid⟩ = some p.2
    · have hup := upsert_unchanged st.registry ⟨p.1, cid⟩ p.2 tv hm
      have step : addPairs cid tv (p :: rest) st = addPairs cid tv rest st := by
        simp [addPairs, hup]
      rw [step, ih st hnd.2, List.filter_cons]
      simp [hm]
    · have hb := upsert_changed st.registry ⟨p.1, cid⟩ p.2 tv hm
      have step : addPairs cid tv (p :: rest) st
          = addPairs cid tv rest
              ⟨(upsert st.registry ⟨p.1, cid⟩ p.2 tv).1,
               st.calls ++ [EngineCall.announce p.1 p.2 tv]⟩ := by
        simp [addPairs, hb]
      rw [step, ih _ hnd.2]
      have hcongr : rest.filter
            (fun q => decide (addrAt (upsert st.registry ⟨p.1, cid⟩ p.2 tv).1 ⟨q.1, cid⟩ ≠ some q.2))
          = rest.filter (fun q => decide (addrAt st.registry ⟨q.1, cid⟩ ≠ some q.2)) := by
        refine List.filter_congr (fun q hq => ?_)
        have hq1 : q.1 ≠ p.1 := by
          intro heq
          exact hnd.1 (heq ▸ List.mem_map_of_mem Prod.fst hq)
        have hkey : (⟨q.1, cid⟩ : RegistrationKey) ≠ ⟨p.1, cid⟩ := by
          simp [RegistrationKey.mk.injEq, hq1]
        rw [addrAt, addrAt, regFind_upsert_ne st.registry ⟨p.1, cid⟩ p.2 tv ⟨q.1, cid⟩ hkey]
      rw [hcongr, List.filter_cons]
      simp [hm]

/-- Claim C1: adding a workload twice with identical environment and
mappings announces each declared service exactly once (the duplicate add
issues no backend call and leaves the state unchanged), and a third add in
which exactly one service's resolved address changed (a mapping's external
port changed) issues exactly one additional announce carrying the new
address.  The hypotheses say the extracted service names are pairwise
distinct and that the extractions of the two workload snapshots agree except
at the one changed service. -/
theorem add_duplicate_suppression (cfg : BeaconConfig) (c c2 : Container)
    (l1 l2 : List (String × Address)) (nj : String) (aj a2 : Address)
    (hnodup : ((extract c cfg.envVar cfg.hostname).map Prod.fst).Nodup)
    (hid : c2.id = c.id)
    (hsplit : extract c cfg.envVar cfg.hostname = l1 ++ (nj, aj) :: l2)
    (hsplit2 : extract c2 cfg.envVar cfg.hostname = l1 ++ (nj, a2) :: l2)
    (hne : a2 ≠ aj) :
    (applyAdd cfg ⟨[], []⟩ c).calls
        = (extract c cfg.envVar cfg.hostname).map
            (fun p => EngineCall.announce p.1 p.2 (cfg.heartbeat + cfg.ttl))
    ∧ applyAdd cfg (applyAdd cfg ⟨[], []⟩ c) c = applyAdd cfg ⟨[], []⟩ c
    ∧ (applyAdd cfg (applyAdd cfg (applyAdd cfg ⟨[], []⟩ c) c) c2).calls
        = (applyAdd cfg ⟨[], []⟩ c).calls
            ++ [EngineCall.announce nj a2 (cfg.heartbeat + cfg.ttl)] := by
  have hfresh := addPairs_fresh c.id (cfg.heartbeat + cfg.ttl)
    (extract c cfg.envVar cfg.hostname) ⟨[], []⟩ hnodup (fun p _ => rfl)
  have hst1 : applyAdd cfg ⟨[], []⟩ c
      = ⟨(extract c cfg.envVar cfg.hostname).map
            (fun p => ⟨⟨p.1, c.id⟩, p.2, cfg.heartbeat + cfg.ttl⟩),
         (extract c cfg.envVar cfg.hostname).map
            (fun p => EngineCall.announce p.1 p.2 (cfg.heartbeat + cfg.ttl))⟩ := by
    unfold applyAdd
    rw [hfresh]
    simp
  have hmatch : ∀ p ∈ extract c cfg.envVar cfg.hostname,
      addrAt ((extract c cfg.envVar cfg.hostname).map
          (fun p => ⟨⟨p.1, c.id⟩, p.2, cfg.heartbeat + cfg.ttl⟩)) ⟨p.1, c.id⟩ = some p.2 := by
    intro p hp
    rw [addrAt, regFind_map_self c.id (cfg.heartbeat + cfg.ttl)
      (extract c cfg.envVar cfg.hostname) hnodup p hp]
    rfl
  have h2 : applyAdd cfg (applyAdd cfg ⟨[], []⟩ c) c = applyAdd cfg ⟨[], []⟩ c := by
    rw [hst1]
    exact addPairs_matching c.id (cfg.heartbeat + cfg.ttl)
      (extract c cfg.envVar cfg.hostname) _ hmatch
  refine ⟨by rw [hst1], h2, ?_⟩
  have hnodup2 : ((extract c2 cfg.envVar cfg.hostname).map Prod.fst).Nodup := by
    have hmapeq : (extract c2 cfg.envVar cfg.hostname).map Prod.fst
        = (extract c cfg.envVar cfg.hostname).map Prod.fst := by
      rw [hsplit, hsplit2]
      simp
    rw [hmapeq]
    exact hnodup
  have hcalls := addPairs_calls c2.id (cfg.heartbeat + cfg.ttl)
    (extract c2 cfg.envVar cfg.hostname)
    ⟨(extract c cfg.envVar cfg.hostname).map
        (fun p => ⟨⟨p.1, c.id⟩, p.2, cfg.heartbeat + cfg.ttl⟩),
     (extract c cfg.envVar cfg.hostname).map
        (fun p => EngineCall.announce p.1 p.2 (cfg.heartbeat + cfg.ttl))⟩ hnodup2
  dsimp only at hcalls
  have hfilt : (extract c2 cfg.envVar cfg.hostname).filter
      (fun p => decide (addrAt ((extract c cfg.envVar cfg.hostname).map
          (fun p => ⟨⟨p.1, c.id⟩, p.2, cfg.heartbeat + cfg.ttl⟩)) ⟨p.1, c2.id⟩ ≠ some p.2))
      = [(nj, a2)] := by
    rw [hsplit2, List.filter_append, List.filter_cons]
    have hl1 : l1.filter
        (fun p => decide (addrAt ((extract c cfg.envVar cfg.hostname).map
            (fun p => ⟨⟨p.1, c.id⟩, p.2, cfg.heartbeat + cfg.ttl⟩)) ⟨p.1, c2.id⟩ ≠ some p.2))
        = [] := by
      refine List.filter_eq_nil_iff.mpr (fun q hq => ?_)
      have hqmem : q ∈ extract c cfg.envVar cfg.hostname := by
        rw [hsplit]
        exact List.mem_append_left _ hq
      simp [hid, hmatch q hqmem]
    have hl2 : l2.filter
        (fun p => decide (addrAt ((extract c cfg.envVar cfg.hostname).map
            (fun p => ⟨⟨p.1, c.id⟩, p.2, cfg.heartbeat + cfg.ttl⟩)) ⟨p.1, c2.id⟩ ≠ some p.2))
        = [] := by
      refine List.filter_eq_nil_iff.mpr (fun q hq => ?_)
      have hqmem : q ∈ extract c cfg.envVar cfg.hostname := by
        rw [hsplit]
        exact List.mem_append_right _ (List.mem_cons_of_mem _ hq)
      simp [hid, hmatch q hqmem]
    have hjmem : (nj, aj) ∈ extract c cfg.envVar cfg.hostname := by
      rw [hsplit]
      exact List.mem_append_right _ (List.mem_cons_self _ _)
    have hjaddr := hmatch (nj, aj) hjmem
    have hjpred : addrAt ((extract c cfg.envVar cfg.hostname).map
        (fun p => ⟨⟨p.1, c.id⟩, p.2, cfg.heartbeat + cfg.ttl⟩)) ⟨nj, c2.id⟩ ≠ some a2 := by
      rw [hid]
      rw [hjaddr]
      simp
      exact fun heq => hne heq.symm
    rw [hl1, hl2]
    simp [hjpred]
  rw [h2, hst1]
  unfold applyAdd
  dsimp only
  rw [hcalls, hfilt]
  simp

theorem add_duplicate_witness :
    (applyAdd ⟨"testing.example.net", 30, 30, "SERVICES", 1, []⟩ ⟨[], []⟩
        ⟨"c1", ["SERVICES=www:80"], "172.16.0.10",
          [⟨⟨"10.1.1.100", ⟨49000, Protocol.tcp⟩⟩, ⟨80, Protocol.tcp⟩⟩], []⟩).calls
      = [EngineCall.announce ("www") ⟨"10.1.1.100", ⟨49000, Protocol.tcp⟩⟩ 60]
    ∧ applyAdd ⟨"testing.example.net", 30, 30, "SERVICES", 1, []⟩
        (applyAdd ⟨"testing.example.net", 30, 30, "SERVICES", 1, []⟩ ⟨[], []⟩
          ⟨"c1", ["SERVICES=www:80"], "172.16.0.10",
            [⟨⟨"10.1.1.100", ⟨49000, Protocol.tcp⟩⟩, ⟨80, Protocol.tcp⟩⟩], []⟩)
        ⟨"c1", ["SERVICES=www:80"], "172.16.0.10",
          [⟨⟨"10.1.1.100", ⟨49000, Protocol.tcp⟩⟩, ⟨80, Protocol.tcp⟩⟩], []⟩
      = applyAdd ⟨"testing.example.net", 30, 30, "SERVICES", 1, []⟩ ⟨[], []⟩
          ⟨"c1", ["SERVICES=www:80"], "172.16.0.10",
            [⟨⟨"10.1.1.100", ⟨49000, Protocol.tcp⟩⟩, ⟨80, Protocol.tcp⟩⟩], []⟩
    ∧ (applyAdd ⟨"testing.example.net", 30, 30, "SERVICES", 1, []⟩
        (applyAdd ⟨"testing.example.net", 30, 30, "SERVICES", 1, []⟩
          (applyAdd ⟨"testing.example.net", 30, 30, "SERVICES", 1, []⟩ ⟨[], []⟩
            ⟨"c1", ["SERVICES=www:80"], "172.16.0.10",
              [⟨⟨"10.1.1.100", ⟨49000, Protocol.tcp⟩⟩, ⟨80, Protocol.tcp⟩⟩], []⟩)
          ⟨"c1", ["SERVICES=www:80"], "172.16.0.10",
            [⟨⟨"10.1.1.100", ⟨49000, Protocol.tcp⟩⟩, ⟨80, Protocol.tcp⟩⟩], []⟩)
        ⟨"c1", ["SERVICES=www:80"], "172.16.0.10",
          [⟨⟨"10.1.1.100", ⟨49001, Protocol.tcp⟩⟩, ⟨80, Protocol.tcp⟩⟩], []⟩).calls
      = (applyAdd ⟨"testing.example.net", 30, 30, "SERVICES", 1, []⟩ ⟨[], []⟩
          ⟨"c1", ["SERVICES=www:80"], "172.16.0.10",
            [⟨⟨"10.1.1.100", ⟨49000, Protocol.tcp⟩⟩, ⟨80, Protocol.tcp⟩⟩], []⟩).calls
          ++ [EngineCall.announce ("www") ⟨"10.1.1.100", ⟨49001, Protocol.tcp⟩⟩ 60] := by
  have h := add_duplicate_suppression
    ⟨"testing.example.net", 30, 30, "SERVICES", 1, []⟩
    ⟨"c1", ["SERVICES=www:80"], "172.16.0.10",
      [⟨⟨"10.1.1.100", ⟨49000, Protocol.tcp⟩⟩, ⟨80, Protocol.tcp⟩⟩], []⟩
    ⟨"c1", ["SERVICES=www:80"], "172.16.0.10",
      [⟨⟨"10.1.1.100", ⟨49001, Protocol.tcp⟩⟩, ⟨80, Protocol.tcp⟩⟩], []⟩
    [] [] "www" ⟨"10.1.1.100", ⟨49000, Protocol.tcp⟩⟩ ⟨"10.1.1.100", ⟨49001, Protocol.tcp⟩⟩
    (by decide) rfl (by decide) (by decide) (by decide)
  exact ⟨h.1, h.2.1, h.2.2⟩

theorem mem_regReplace (reg : List RegistrationEntry) (k : RegistrationKey) (a : Address)
    (t : Nat) (e : RegistrationEntry) (h : e ∈ regReplace reg k a t) :
    e ∈ reg ∨ e = ⟨k, a, t⟩ := by
  induction reg with
  | nil => simp [regReplace] at h
  | cons e2 rest ih =>
    by_cases h2 : e2.key = k
    · rw [regReplace, if_pos h2] at h
      rcases List.mem_cons.mp h with h3 | h3
      · exact Or.inr h3
      · rcases ih h3 with h4 | h4
        · exact Or.inl (List.mem_cons_of_mem e2 h4)
        · exact Or.inr h4
    · rw [regReplace, if_neg h2] at h
      rcases List.mem_cons.mp h with h3 | h3
      · exact Or.inl (h3 ▸ List.mem_cons_self e2 rest)
      · rcases ih h3 with h4 | h4
        · exact Or.inl (List.mem_cons_of_mem e2 h4)
        · exact Or.inr h4

theorem mem_regDelete (reg : List RegistrationEntry) (k : RegistrationKey)
    (e : RegistrationEntry) (h : e ∈ regDelete reg k) : e ∈ reg := by
  induction reg with
  | nil => simp [regDelete] at h
  | cons e2 rest ih =>
    by_cases h2 : e2.key = k
    · rw [regDelete, if_pos h2] at h
      exact List.mem_cons_of_mem e2 (ih h)
    · rw [regDelete, if_neg h2] at h
      rcases List.mem_cons.mp h with h3 | h3
      · exact h3 ▸ List.mem_cons_self e2 rest
      · exact List.mem_cons_of_mem e2 (ih h3)

theorem mem_upsert (reg : List RegistrationEntry) (k : RegistrationKey) (a : Address)
    (t : Nat) (e : RegistrationEntry) (h : e ∈ (upsert reg k a t).1) :
    e ∈ reg ∨ e = ⟨k, a, t⟩ := by
  unfold upsert at h
  cases hf : regFind reg k with
  | none =>
    rw [hf] at h
    simp only [List.mem_append, List.mem_singleton] at h
    exact h
  | some e2 =>
    rw [hf] at h
    dsimp only at h
    by_cases ha : e2.address = a
    · rw [if_pos ha] at h
      exact Or.inl h
    · rw [if_neg ha] at h
      exact mem_regReplace reg k a t e h

theorem goodTTL_addPairs (cid : String) (tv : Nat) (pairs : List (String × Address)) :
    ∀ st, goodTTL tv st → goodTTL tv (addPairs cid tv pairs st) := by
  induction pairs with
  | nil => exact fun st h => h
  | cons p rest ih =>
    intro st h
    simp only [addPairs]
    apply ih
    constructor
    · intro e he
      rcases mem_upsert st.registry ⟨p.1, cid⟩ p.2 tv e he with h1 | h1
      · exact h.1 e h1
      · rw [h1]
    · intro n a t ht
      by_cases hb : (upsert st.registry ⟨p.1, cid⟩ p.2 tv).2 = true
      · rw [if_pos hb] at ht
        rcases List.mem_append.mp ht with h1 | h1
        · exact h.2 n a t h1
        · have h2 := List.mem_singleton.mp h1
          injection h2
      · rw [if_neg hb] at ht
        exact h.2 n a t ht

theorem goodTTL_removePairs (tv : Nat) (cid : String) (pairs : List (String × Address)) :
    ∀ st, goodTTL tv st → goodTTL tv (removePairs cid pairs st) := by
  induction pairs with
  | nil => exact fun st h => h
  | cons p rest ih =>
    intro st h
    cases hf : regFind st.registry ⟨p.1, cid⟩ with
    | none =>
      simp only [removePairs, regRemove, hf]
      exact ih st h
    | some e =>
      simp only [removePairs, regRemove, hf]
      apply ih
      constructor
      · intro e2 he2
        exact h.1 e2 (mem_regDelete st.registry ⟨p.1, cid⟩ e2 he2)
      · intro n a t ht
        rcases List.mem_append.mp ht with h1 | h1
        · exact h.2 n a t h1
        · exact absurd (List.mem_singleton.mp h1) (by simp)

theorem goodTTL_heartbeat (tv : Nat) (st : BeaconState) (h : goodTTL tv st) :
    goodTTL tv (heartbeat st) := by
  refine ⟨h.1, ?_⟩
  intro n a t ht
  rcases List.mem_append.mp ht with h1 | h1
  · exact h.2 n a t h1
  · obtain ⟨e, he, heq⟩ := List.mem_map.mp h1
    injection heq with _ _ h3
    rw [← h3]
    exact h.1 e he

theorem goodTTL_closePairs (tv : Nat) (es : List RegistrationEntry) :
    ∀ st, goodTTL tv st → goodTTL tv (closePairs es st) := by
  induction es with
  | nil => exact fun st h => h
  | cons e rest ih =>
    intro st h
    cases hf : regFind st.registry e.key with
    | none =>
      simp only [closePairs, regRemove, hf]
      exact ih st h
    | some e2 =>
      simp only [closePairs, regRemove, hf]
      apply ih
      constructor
      · intro e3 he3
        exact h.1 e3 (mem_regDelete st.registry e.key e3 he3)
      · intro n a t ht
        rcases List.mem_append.mp ht with h1 | h1
        · exact h.2 n a t h1
        · exact absurd (List.mem_singleton.mp h1) (by simp)

theorem goodTTL_closeBeacon (tv : Nat) (cfg : BeaconConfig) (st : BeaconState)
    (h : goodTTL tv st) : goodTTL tv (closeBeacon cfg st) := by
  apply goodTTL_closePairs
  refine ⟨h.1, ?_⟩
  intro n a t ht
  rcases List.mem_append.mp ht with h1 | h1
  · exact h.2 n a t h1
  · obtain ⟨i, _, heq⟩ := List.mem_map.mp h1
    exact absurd heq (by simp)

theorem goodTTL_step (cfg : BeaconConfig) (st : BeaconState) (op : EngineOp)
    (h : goodTTL (cfg.heartbeat + cfg.ttl) st) :
    goodTTL (cfg.heartbeat + cfg.ttl) (step cfg st op) := by
  cases op with
  | event ev =>
    simp only [step, applyEvent]
    by_cases hm : MatchContainer ⟨cfg.filter⟩ ev.container = true
    · rw [if_pos hm]
      cases ev.action with
      | add => exact goodTTL_addPairs ev.container.id (cfg.heartbeat + cfg.ttl) _ st h
      | remove => exact goodTTL_removePairs (cfg.heartbeat + cfg.ttl) ev.container.id _ st h
    · rw [if_neg hm]
      exact h
  | tick => exact goodTTL_heartbeat (cfg.heartbeat + cfg.ttl) st h
  | closeOp => exact goodTTL_closeBeacon (cfg.heartbeat + cfg.ttl) cfg st h

theorem goodTTL_runOps (cfg : BeaconConfig) (ops : List EngineOp) :
    ∀ st, goodTTL (cfg.heartbeat + cfg.ttl) st →
      goodTTL (cfg.heartbeat + cfg.ttl) (runOps cfg st ops) := by
  induction ops with
  | nil => exact fun st h => h
  | cons op rest ih =>
    intro st h
    exact ih (step cfg st op) (goodTTL_step cfg st op h)

/-- Claim C7: every Discovery.Announce call the engine ever issues — whether
triggered by an Add event or by a heartbeat tick — carries a TTL argument
equal to the configured heartbeat interval plus the configured TTL. -/
theorem announce_ttl_invariant (cfg : BeaconConfig) (ops : List EngineOp)
    (n : String) (a : Address) (t : Nat)
    (h : EngineCall.announce n a t ∈ (runOps cfg ⟨[], []⟩ ops).calls) :
    t = cfg.heartbeat + cfg.ttl :=
  (goodTTL_runOps cfg ops ⟨[], []⟩ ⟨by simp, by simp⟩).2 n a t h

theorem announce_ttl_witness :
    EngineCall.announce ("www") ⟨"10.1.1.100", ⟨49000, Protocol.tcp⟩⟩ 60
        ∈ (runOps ⟨"testing.example.net", 30, 30, "SERVICES", 1, []⟩ ⟨[], []⟩
            [EngineOp.event ⟨ContainerAction.add,
              ⟨"c1", ["SERVICES=www:80"], "172.16.0.10",
                [⟨⟨"10.1.1.100", ⟨49000, Protocol.tcp⟩⟩, ⟨80, Protocol.tcp⟩⟩], []⟩⟩,
             EngineOp.tick]).calls
    ∧ (60 : Nat) = 30 + 30 :=
  ⟨by decide,
   announce_ttl_invariant ⟨"testing.example.net", 30, 30, "SERVICES", 1, []⟩
     [EngineOp.event ⟨ContainerAction.add,
        ⟨"c1", ["SERVICES=www:80"], "172.16.0.10",
          [⟨⟨"10.1.1.100", ⟨49000, Protocol.tcp⟩⟩, ⟨80, Protocol.tcp⟩⟩], []⟩⟩,
      EngineOp.tick]
     "www" ⟨"10.1.1.100", ⟨49000, Protocol.tcp⟩⟩ 60 (by decide)⟩

end Beacon
